import Mathlib

/-!
Verification of the `typing_test` terminal program (Rust sources
`src/line.rs`, `src/main.rs`, `src/quote.rs`) against its natural-language
specification.  Strings are modelled as `List Char` (sequences of Unicode
scalar values), so that both character-level operations (`chars()`) and
byte-level operations (Rust `String::len`, via `Char.utf8Size`) can be
expressed.  Randomness (`Line::new`, `random_quote`) and the event source
are modelled by explicit oracle parameters; real time is modelled by an
explicit clock value (in seconds) attached to each loop iteration.
-/

set_option autoImplicit false

namespace Typing

/-- `LINE_LEN` constant from `src/line.rs`: each generated line holds 10 words. -/
def LINE_LEN : Nat := 10

/-- The `join` helper from `src/line.rs`: interleave single spaces between the
pieces (`reduce(|a, b| format!("{} {}", a, b)).unwrap_or_default()`; the
left-fold of the source and this right recursion agree because list append is
associative). -/
def join : List (List Char) → List Char
  | [] => []
  | [w] => w
  | w :: ws => w ++ ' ' :: join ws

/-- Rust `str::split(' ')` as used by `Line::from_quote`: split on single
space characters, keeping empty pieces (consecutive spaces give empty pieces,
and the empty string yields one empty piece). -/
def splitCh : List Char → List (List Char)
  | [] => [[]]
  | c :: rest =>
      match splitCh rest with
      | [] => [[]]
      | w :: ws => if c = ' ' then [] :: w :: ws else (c :: w) :: ws

/-- The `Line` struct from `src/line.rs`: the user's typed input and the
expected target text. -/
structure Line where
  buffer : List Char
  expected : List Char
  deriving DecidableEq

/-- `Line::new` from `src/line.rs` builds an empty buffer and a randomly
generated expected text of `LINE_LEN` words; the random text is supplied
explicitly as the `generated` oracle parameter. -/
def Line.new (generated : List Char) : Line := ⟨[], generated⟩

/-- `Line::empty` from `src/line.rs`: no expected input. -/
def Line.empty : Line := ⟨[], []⟩

/-- `Line::from_quote` from `src/line.rs`: the new line's expected text is the
first `LINE_LEN` pieces of `string.split(' ')` rejoined with single spaces
(buffer empty, from `..Self::new()`), and the source string is mutated to the
remaining pieces rejoined with single spaces.  Returned as a pair
(new line, new value of the mutated string). -/
def Line.from_quote (s : List Char) : Line × List Char :=
  (⟨[], join ((splitCh s).take LINE_LEN)⟩, join ((splitCh s).drop LINE_LEN))

/-- UTF-8 byte length of a string, i.e. what Rust `String::len` returns. -/
def byteLen (s : List Char) : Nat := (s.map Char.utf8Size).sum

/-- `Line::index` from `src/line.rs`: `self.buffer.len()`, the UTF-8 byte
length of the buffer. -/
def Line.index (l : Line) : Nat := byteLen l.buffer

/-- `Line::done` from `src/line.rs`: `self.index() >= self.expected.len()`,
a comparison of UTF-8 byte lengths. -/
def Line.done (l : Line) : Bool := decide (l.index ≥ byteLen l.expected)

/-- `Line::add_char` from `src/line.rs`: push one character. -/
def Line.add_char (l : Line) (c : Char) : Line := ⟨l.buffer ++ [c], l.expected⟩

/-- `Line::backspace` from `src/line.rs`: `String::pop`, removing the last
character if any. -/
def Line.backspace (l : Line) : Line := ⟨l.buffer.dropLast, l.expected⟩

/-- The scanning loop of `Line::word_count` from `src/line.rs`.  The first
argument is the not-yet-scanned suffix of `buffer ++ [' ']`, the second the
corresponding suffix of `expected`; `word_correct` and `count` are the loop
variables.  Per iteration, in source order: if the scan ran past `expected`,
credit the current word if still correct and stop; at a space in `expected`,
credit the current word if still correct and restart the flag; then compare
the two characters at this position and clear the flag on mismatch. -/
def wcGo : List Char → List Char → Bool → Nat → Nat
  | [], _, _, count => count
  | _ :: _, [], word_correct, count => if word_correct then count + 1 else count
  | b :: bs, e :: es, word_correct, count =>
      wcGo bs es
        (if b ≠ e then false else if e = ' ' then true else word_correct)
        (if e = ' ' && word_correct then count + 1 else count)

/-- `Line::word_count` from `src/line.rs`: scan the buffer with one synthetic
trailing space appended (`chars().chain([' '])`) against the expected text. -/
def Line.word_count (l : Line) : Nat := wcGo (l.buffer ++ [' ']) l.expected true 0

/-! Specification-side characterization of the `word_count` scan, following
the wording of the claim: a word is credited only at a boundary space of
`expected` reached by the scan, or when the scan runs past the end of
`expected` while still inside `buffer ++ [' ']`, and only if every character
compared so far in that word matched exactly (the scan charges the comparison
at a boundary space to the following word). -/

/-- Start position of the word containing position `i` of `e`: one past the
last space of `e` strictly before `i` (0 when there is none). -/
def wordStart (e : List Char) : Nat → Nat
  | 0 => 0
  | i + 1 => if e[i]? = some ' ' then i + 1 else wordStart e i

/-- First position actually compared for the word containing position `i`:
the boundary space right before the word (the scan's `word_correct` flag is
reset at that space before the comparison there happens), or 0 at the start. -/
def scanStart (e : List Char) (i : Nat) : Nat := wordStart e i - 1

/-- All positions `j` with `s ≤ j < t` match between `b` and `e`. -/
def matchedFrom (b e : List Char) (s t : Nat) : Bool :=
  decide (∀ j, j < t → s ≤ j → b[j]? = e[j]?)

/-- The scan's `word_correct` flag at position `i`, relative to a start flag
`wc` standing for the comparisons made before the suffix under consideration:
if no space of `e` occurs before `i`, the current word started before the
suffix and the flag also requires `wc`. -/
def relMatched (b e : List Char) (wc : Bool) (i : Nat) : Bool :=
  if wordStart e i = 0 then wc && matchedFrom b e 0 i
  else matchedFrom b e (scanStart e i) i

/-- A word is credited at position `i` of `e`: the scan is still inside the
buffer, `e` has a boundary space at `i`, and the word was fully correct. -/
def relCredit (b e : List Char) (wc : Bool) (i : Nat) : Bool :=
  decide (i < b.length) && decide (e[i]? = some ' ') && relMatched b e wc i

/-- A word is credited at the break: the scan runs past the end of `e` while
still inside the buffer, and the in-progress word was fully correct. -/
def relEnd (b e : List Char) (wc : Bool) : Bool :=
  decide (e.length < b.length) && relMatched b e wc e.length

/-- Total number of credited words of the scan of `b` against `e`. -/
def relCount (b e : List Char) (wc : Bool) : Nat :=
  ((List.range e.length).filter (fun i => relCredit b e wc i)).length +
    (if relEnd b e wc then 1 else 0)

/-- Claim-side description of `word_count`: one credit per boundary space of
`expected` reached by the scan with the word fully correct, plus one credit
at the break past the end of `expected`. -/
def wordCountSpec (l : Line) : Nat := relCount (l.buffer ++ [' ']) l.expected true

/-- Natural number of space-delimited words of a string: the number of
maximal nonempty space-free runs. -/
def numWords (s : List Char) : Nat :=
  ((splitCh s).filter (fun w => !w.isEmpty)).length

/-! The session controller from `src/main.rs`. -/

/-- `TestMode` enum from `src/main.rs`. -/
inductive TestMode where
  | WordCount (words : Nat)
  | TimeLimit (seconds : Nat)
  | QuoteMode (remaining : List Char) (custom : Option (List Char))
  deriving DecidableEq

/-- Whether a mode is the quote mode. -/
def TestMode.isQuote : TestMode → Bool
  | .QuoteMode _ _ => true
  | _ => false

/-- The `Args` struct from `src/main.rs` (parsed command-line flags). -/
structure Args where
  number : Option Nat
  time : Option Nat
  quote : Bool
  custom_quote : Option (List Char)
  deriving DecidableEq

/-- The `TypingTest` struct from `src/main.rs`. `instant` is the optional
start time of the timer, in seconds. -/
structure TypingTest where
  running : Bool
  show_final_score : Bool
  previous_line : Line
  line : Line
  next_line : Line
  test_mode : TestMode
  _word_count : Nat
  instant : Option Nat
  deriving DecidableEq

/-- `TypingTest::new` from `src/main.rs`.  `gen1`/`gen2` are the oracle texts
of the two `Line::new()` calls of the non-quote branch, `rq` the oracle
result of `random_quote()` used when quote mode is on with no custom quote.
In quote mode the two initial lines are consumed from `remaining` in order. -/
def TypingTest.new (args : Args) (gen1 gen2 rq : List Char) : TypingTest :=
  let test_mode :=
    match args.time with
    | some seconds => TestMode.TimeLimit seconds
    | none =>
      if args.quote then TestMode.QuoteMode (args.custom_quote.getD rq) args.custom_quote
      else TestMode.WordCount (args.number.getD 30)
  match test_mode with
  | TestMode.QuoteMode remaining custom =>
      let p1 := Line.from_quote remaining
      let p2 := Line.from_quote p1.2
      { running := true, show_final_score := true, previous_line := Line.empty,
        line := p1.1, next_line := p2.1,
        test_mode := TestMode.QuoteMode p2.2 custom, _word_count := 0, instant := none }
  | m =>
      { running := true, show_final_score := true, previous_line := Line.empty,
        line := Line.new gen1, next_line := Line.new gen2,
        test_mode := m, _word_count := 0, instant := none }

/-- `TypingTest::word_count` from `src/main.rs`: cumulative count of the
rotated-out lines plus the current line's own count. -/
def TypingTest.word_count (t : TypingTest) : Nat := t._word_count + t.line.word_count

/-- `TypingTest::get_next_line` from `src/main.rs` (line rotation): add the
current line's word count to the accumulator, swap current and next, archive
the finished line as previous, and install a fresh line (consumed from the
quote in quote mode, otherwise a generated one with oracle text `gen`). -/
def TypingTest.get_next_line (t : TypingTest) (gen : List Char) : TypingTest :=
  let wc := t._word_count + t.line.word_count
  match t.test_mode with
  | TestMode.QuoteMode remaining custom =>
      let p := Line.from_quote remaining
      { t with _word_count := wc, previous_line := t.line, line := t.next_line,
               next_line := p.1, test_mode := TestMode.QuoteMode p.2 custom }
  | _ =>
      { t with _word_count := wc, previous_line := t.line, line := t.next_line,
               next_line := Line.new gen }

/-- `TypingTest::quit` from `src/main.rs`. -/
def TypingTest.quit (t : TypingTest) : TypingTest :=
  { t with running := false, show_final_score := false }

/-- Oracle values for one loop iteration: `gen` is the text of the
`Line::new()` of a possible rotation, `gen1`/`gen2` the texts of the two
`Line::new()` of a possible reset, `rq` the `random_quote()` of a possible
reset in non-custom quote mode. -/
structure Oracle where
  gen : List Char
  gen1 : List Char
  gen2 : List Char
  rq : List Char
  deriving DecidableEq

/-- `TypingTest::reset` from `src/main.rs` (Tab): clear previous line,
accumulator and timer; in quote mode restore the remaining text from the
custom quote or fetch a new random one, then re-consume both lines. -/
def TypingTest.reset (t : TypingTest) (o : Oracle) : TypingTest :=
  let base := { t with previous_line := Line.empty, _word_count := 0,
                       instant := (none : Option Nat) }
  match t.test_mode with
  | TestMode.QuoteMode _ custom =>
      let remaining := match custom with | some s => s | none => o.rq
      let p1 := Line.from_quote remaining
      let p2 := Line.from_quote p1.2
      { base with line := p1.1, next_line := p2.1,
                  test_mode := TestMode.QuoteMode p2.2 custom }
  | _ => { base with line := Line.new o.gen1, next_line := Line.new o.gen2 }

/-- The keyboard events of `src/main.rs` (`KeyCode`); `Other` stands for any
other key, which is a no-op. -/
inductive Event where
  | Esc | Backspace | Tab | Chr (c : Char) | Other
  deriving DecidableEq

/-- `TypingTest::kbin` from `src/main.rs`: apply at most one polled event
(`none` models a poll timeout).  On the first character keystroke the timer
is started at the current time `now`; a space while the current line is done
triggers a rotation, any other character is appended. -/
def TypingTest.kbin (t : TypingTest) (ev : Option Event) (now : Nat) (o : Oracle) :
    TypingTest :=
  match ev with
  | none => t
  | some Event.Esc => t.quit
  | some Event.Backspace => { t with line := t.line.backspace }
  | some Event.Tab => t.reset o
  | some (Event.Chr ch) =>
      let t := if t.instant.isNone then { t with instant := some now } else t
      if ch = ' ' && t.line.done then t.get_next_line o.gen
      else { t with line := t.line.add_char ch }
  | some Event.Other => t

/-- The per-iteration termination check of `TypingTest::run` from
`src/main.rs`: word-count mode compares the running word count with the
target; time-limit mode compares the elapsed seconds with the target, but
only once the timer has been started; quote mode stops when both the current
and the lookahead line are done. -/
def checkBreak (t : TypingTest) (now : Nat) : Bool :=
  match t.test_mode with
  | TestMode.WordCount words => decide (t.word_count ≥ words)
  | TestMode.TimeLimit seconds =>
      match t.instant with
      | some start => decide (now - start ≥ seconds)
      | none => false
  | TestMode.QuoteMode _ _ => t.line.done && t.next_line.done

/-- The input loop of `TypingTest::run` from `src/main.rs`, driven by a
finite schedule of iterations, each carrying the polled event (if any), the
current clock value in seconds and the oracle values.  Returns the final
state together with `true` when the loop ended through the mode-termination
`break` (as opposed to `running` having been cleared by quit, or the schedule
being exhausted). -/
def runLoop : TypingTest → List (Option Event × Nat × Oracle) → TypingTest × Bool
  | t, [] => (t, false)
  | t, (ev, now, o) :: rest =>
      if t.running then
        let t1 := t.kbin ev now o
        if checkBreak t1 now then (t1, true) else runLoop t1 rest
      else (t, false)

/-! Claim-side auxiliary notions: whitespace-separated words (for comparison
with the source's space-only split), the rotation-accounting instrumentation,
a minimal model of the `f32` values of `draw_score`, and the outcome of
`main` up to session start. -/

/-- Whitespace characters, for the claim-side reading of
whitespace-separated words. -/
def isWhitespaceChar (c : Char) : Bool := c = ' ' || c = '\t' || c = '\n' || c = '\r'

/-- Claim-side split on any whitespace character (same shape as `splitCh`). -/
def wsSplit : List Char → List (List Char)
  | [] => [[]]
  | c :: rest =>
      match wsSplit rest with
      | [] => [[]]
      | w :: ws => if isWhitespaceChar c then [] :: w :: ws else (c :: w) :: ws

/-- Claim-side whitespace-separated words of a text: the maximal nonempty
whitespace-free runs. -/
def wsWords (s : List Char) : List (List Char) :=
  (wsSplit s).filter (fun w => !w.isEmpty)

/-- Replace the current line's buffer: stands for the input the user typed on
the current line between two rotations (`Line::add_char` / `backspace` only
ever modify `line.buffer`). -/
def TypingTest.setBuffer (t : TypingTest) (buf : List Char) : TypingTest :=
  { t with line := { t.line with buffer := buf } }

/-- Perform a sequence of rotations: each step supplies the buffer the user
had typed on the current line at the moment of the rotation, and the
generator oracle of that rotation's fresh line. -/
def rotateAll : TypingTest → List (List Char × List Char) → TypingTest
  | t, [] => t
  | t, (buf, gen) :: rest => rotateAll ((t.setBuffer buf).get_next_line gen) rest

/-- The word counts of the rotated-out lines, each evaluated at the moment of
its rotation (buffer as typed, expected text of the line then current). -/
def rotatedCounts : TypingTest → List (List Char × List Char) → List Nat
  | _, [] => []
  | t, (buf, gen) :: rest =>
      Line.word_count ⟨buf, t.line.expected⟩ ::
        rotatedCounts ((t.setBuffer buf).get_next_line gen) rest

/-- Minimal model of the `f32` values arising in `TypingTest::draw_score`. -/
inductive F32 where
  | fin (q : ℚ)
  | nan
  | inf
  deriving DecidableEq

/-- `f32` division for the values arising in `draw_score`.  All finite
operands occurring there are nonnegative and exactly representable
(`0`, `60`, whole word counts, elapsed seconds), and only the zero-divisor
path is relied on, so rounding of nonzero quotients is ignored and the exact
rational is kept.  Per IEEE 754, `0.0 / 0.0` is NaN and `x / 0.0` is `+inf`
for `x > 0`; NaN propagates through any further division. -/
def F32.div : F32 → F32 → F32
  | .fin a, .fin b => if b = 0 then (if a = 0 then .nan else .inf) else .fin (a / b)
  | _, _ => .nan

/-- The elapsed-time value of `TypingTest::draw_score`:
`self.instant.map(|x| x.elapsed().as_secs_f32()).unwrap_or(0f32)`, taken at
clock value `now` (whole seconds). -/
def TypingTest.draw_score_time (t : TypingTest) (now : Nat) : F32 :=
  match t.instant with
  | some start => .fin ((now - start : Nat) : ℚ)
  | none => .fin 0

/-- The wpm value printed by `TypingTest::draw_score`:
`wc as f32 / (time / 60f32)`, computed with no guard on `time = 0`. -/
def TypingTest.draw_score_wpm (t : TypingTest) (now : Nat) : F32 :=
  F32.div (.fin (t.word_count : ℚ)) (F32.div (t.draw_score_time now) (.fin 60))

/-- Outcome of `main` from `src/main.rs`, up to the start of the session: the
conflicting-flags branch prints one message line and then `return Ok(())`,
which makes the process exit with status 0; otherwise the session is
constructed and `run` is entered (its exit status then depends on the I/O
result of `run`). -/
inductive MainOutcome where
  | confError (printed : List Char) (exitCode : Nat)
  | session (t : TypingTest)
  deriving DecidableEq

/-- The conflicting-flags message printed by `main` (via `println!`, so to
standard output). -/
def conflictMsg : List Char :=
  "Invalid combination of flags. Please do not pass conflicting flags.".toList

/-- `main` from `src/main.rs`: force quote mode when a custom quote is given,
then reject conflicting flag combinations, printing `conflictMsg` and
returning `Ok(())` (process exit status 0) before any terminal-mode change;
otherwise build the session state and enter `run`. -/
def mainFn (args : Args) (gen1 gen2 rq : List Char) : MainOutcome :=
  let args := if args.custom_quote.isSome then { args with quote := true } else args
  if (args.time.isSome && args.number.isSome) || (args.time.isSome && args.quote)
      || (args.number.isSome && args.quote)
  then MainOutcome.confError conflictMsg 0
  else MainOutcome.session (TypingTest.new args gen1 gen2 rq)

/-- Whether `run` (and with it `terminal::enable_raw_mode`) is ever reached. -/
def MainOutcome.rawModeEntered : MainOutcome → Bool
  | .confError _ _ => false
  | .session _ => true

/-- The process exit status of the configuration-error path; `none` when a
session runs (its status then depends on the I/O result of `run`). -/
def MainOutcome.exitStatus : MainOutcome → Option Nat
  | .confError _ code => some code
  | .session _ => none

/-- Claim-side predicate: the program stopped on the configuration-error path
with an exit status indicating failure (nonzero). -/
def MainOutcome.exitsWithFailure : MainOutcome → Bool
  | .confError _ code => decide (code ≠ 0)
  | .session _ => false

/-- Whether a polled event is a character keystroke (the only kind of event
that starts the timer). -/
def isCharEvent : Option Event → Bool
  | some (Event.Chr _) => true
  | _ => false

/-! Proof development.  First the characterization of the `word_count` scan:
`wcGo b e wc c = c + relCount b e wc`, by induction on the buffer, with the
expected text, the `word_correct` flag and the accumulator generalized. -/

theorem wordStart_cons (y : Char) (e : List Char) (i : Nat) :
    wordStart (y :: e) (i + 1) =
      match wordStart e i with
      | 0 => if y = ' ' then 1 else 0
      | s + 1 => s + 2 := by
  induction i with
  | zero => simp [wordStart]
  | succ i ih =>
      rcases h : e[i]? with _ | c
      · have h1 : wordStart (y :: e) (i + 1 + 1) = wordStart (y :: e) (i + 1) := by
          simp [wordStart, h]
        have h2 : wordStart e (i + 1) = wordStart e i := by simp [wordStart, h]
        rw [h1, h2, ih]
      · by_cases hc : c = ' '
        · subst hc
          have h1 : wordStart (y :: e) (i + 1 + 1) = i + 2 := by simp [wordStart, h]
          have h2 : wordStart e (i + 1) = i + 1 := by simp [wordStart, h]
          rw [h1, h2]
        · have h1 : wordStart (y :: e) (i + 1 + 1) = wordStart (y :: e) (i + 1) := by
            simp [wordStart, h, hc]
          have h2 : wordStart e (i + 1) = wordStart e i := by simp [wordStart, h, hc]
          rw [h1, h2, ih]

theorem matchedFrom_t_zero (b e : List Char) (s : Nat) : matchedFrom b e s 0 = true := by
  simp [matchedFrom]

theorem matchedFrom_succ_succ (x y : Char) (b e : List Char) (s t : Nat) :
    matchedFrom (x :: b) (y :: e) (s + 1) (t + 1) = matchedFrom b e s t := by
  simp only [matchedFrom, decide_eq_decide]
  constructor
  · intro h j hj hsj
    have := h (j + 1) (by omega) (by omega)
    simpa using this
  · intro h j hj hsj
    obtain ⟨j', rfl⟩ : ∃ j', j = j' + 1 := ⟨j - 1, by omega⟩
    simpa using h j' (by omega) (by omega)

theorem matchedFrom_zero_succ (x y : Char) (b e : List Char) (t : Nat) :
    matchedFrom (x :: b) (y :: e) 0 (t + 1) = (decide (x = y) && matchedFrom b e 0 t) := by
  rw [matchedFrom, matchedFrom, ← Bool.decide_and, decide_eq_decide]
  constructor
  · intro h
    refine ⟨?_, fun j hj _ => ?_⟩
    · have := h 0 (by omega) (by omega)
      simpa using this
    · have := h (j + 1) (by omega) (by omega)
      simpa using this
  · rintro ⟨hxy, h⟩ j hj _
    cases j with
    | zero => simpa using hxy
    | succ j' => simpa using h j' (by omega) (by omega)

theorem relMatched_cons (x y : Char) (b e : List Char) (wc : Bool) (i : Nat) :
    relMatched (x :: b) (y :: e) wc (i + 1) =
      relMatched b e (if x ≠ y then false else if y = ' ' then true else wc) i := by
  rcases h : wordStart e i with _ | s
  · by_cases hy : y = ' '
    · have hw : wordStart (y :: e) (i + 1) = 1 := by rw [wordStart_cons, h]; simp [hy]
      have hs : scanStart (y :: e) (i + 1) = 0 := by simp [scanStart, hw]
      rw [relMatched, relMatched, if_neg (by simp [hw]), if_pos h, hs,
        matchedFrom_zero_succ]
      by_cases hxy : x = y <;> simp [hxy, hy]
    · have hw : wordStart (y :: e) (i + 1) = 0 := by rw [wordStart_cons, h]; simp [hy]
      rw [relMatched, relMatched, if_pos hw, if_pos h, matchedFrom_zero_succ]
      by_cases hxy : x = y <;> cases wc <;> simp [hxy, hy]
  · have hw : wordStart (y :: e) (i + 1) = s + 2 := by rw [wordStart_cons, h]
    have hs : scanStart (y :: e) (i + 1) = s + 1 := by simp [scanStart, hw]
    have hs' : scanStart e i = s := by simp [scanStart, h]
    rw [relMatched, relMatched, if_neg (by simp [hw]), if_neg (by simp [h]), hs, hs',
      matchedFrom_succ_succ]

theorem relCredit_zero (x y : Char) (b e : List Char) (wc : Bool) :
    relCredit (x :: b) (y :: e) wc 0 = (decide (y = ' ') && wc) := by
  rw [relCredit, relMatched]
  simp [wordStart, matchedFrom_t_zero, Bool.and_comm]

theorem relCredit_cons (x y : Char) (b e : List Char) (wc : Bool) (i : Nat) :
    relCredit (x :: b) (y :: e) wc (i + 1) =
      relCredit b e (if x ≠ y then false else if y = ' ' then true else wc) i := by
  have h1 : decide (i + 1 < (x :: b).length) = decide (i < b.length) := by
    simp [Nat.succ_lt_succ_iff]
  have h2 : decide ((y :: e)[i + 1]? = some ' ') = decide (e[i]? = some ' ') := by
    simp
  rw [relCredit, relCredit, relMatched_cons, h1, h2]

theorem relEnd_cons (x y : Char) (b e : List Char) (wc : Bool) :
    relEnd (x :: b) (y :: e) wc =
      relEnd b e (if x ≠ y then false else if y = ' ' then true else wc) := by
  have h1 : decide (e.length + 1 < (x :: b).length) = decide (e.length < b.length) := by
    simp [Nat.succ_lt_succ_iff]
  rw [relEnd, relEnd, List.length_cons, relMatched_cons, h1]

theorem relCount_nil (e : List Char) (wc : Bool) : relCount [] e wc = 0 := by
  simp [relCount, relCredit, relEnd]

theorem relCount_cons_nil (x : Char) (b : List Char) (wc : Bool) :
    relCount (x :: b) [] wc = if wc then 1 else 0 := by
  cases wc
  all_goals simp [relCount, relEnd, relMatched, wordStart, matchedFrom_t_zero]

theorem relCount_cons_cons (x y : Char) (b e : List Char) (wc : Bool) :
    relCount (x :: b) (y :: e) wc =
      (if y = ' ' && wc then 1 else 0) +
        relCount b e (if x ≠ y then false else if y = ' ' then true else wc) := by
  have hmap : (List.filter (fun i => relCredit (x :: b) (y :: e) wc i)
      ((List.range e.length).map Nat.succ)).length =
      (List.filter (fun i => relCredit b e
        (if x ≠ y then false else if y = ' ' then true else wc) i)
        (List.range e.length)).length := by
    rw [List.filter_map, List.length_map]
    congr 1
    apply List.filter_congr
    intro i _
    show relCredit (x :: b) (y :: e) wc (i + 1) = _
    rw [relCredit_cons]
  rw [relCount, relCount, List.length_cons, List.range_succ_eq_map, List.filter_cons,
    relEnd_cons, relCredit_zero, ← hmap]
  by_cases hc : (decide (y = ' ') && wc) = true
  · rw [if_pos hc, if_pos hc, List.length_cons]
    omega
  · rw [if_neg hc, if_neg hc]
    omega

theorem wcGo_eq_relCount (b : List Char) : ∀ (e : List Char) (wc : Bool) (c : Nat),
    wcGo b e wc c = c + relCount b e wc := by
  induction b with
  | nil => intro e wc c; simp [wcGo, relCount_nil]
  | cons x b ih =>
      intro e wc c
      cases e with
      | nil => cases wc <;> simp [wcGo, relCount_cons_nil]
      | cons y e =>
          rw [show wcGo (x :: b) (y :: e) wc c = wcGo b e
              (if x ≠ y then false else if y = ' ' then true else wc)
              (if y = ' ' && wc then c + 1 else c) from rfl]
          rw [ih, relCount_cons_cons]
          by_cases hy : y = ' '
          all_goals cases wc
          all_goals simp [hy]
          all_goals omega

theorem word_count_eq_spec (l : Line) : l.word_count = wordCountSpec l := by
  have := wcGo_eq_relCount (l.buffer ++ [' ']) l.expected true 0
  simpa [Line.word_count, wordCountSpec] using this

/-! Monotonicity and the space-count bound of the scan. -/

theorem wcGo_ge (b : List Char) : ∀ (e : List Char) (wc : Bool) (c : Nat),
    c ≤ wcGo b e wc c := by
  induction b with
  | nil => intro e wc c; simp [wcGo]
  | cons x b ih =>
      intro e wc c
      cases e with
      | nil =>
          rw [show wcGo (x :: b) [] wc c = if wc then c + 1 else c from rfl]
          split
          all_goals omega
      | cons y e =>
          rw [show wcGo (x :: b) (y :: e) wc c = wcGo b e
              (if x ≠ y then false else if y = ' ' then true else wc)
              (if y = ' ' && wc then c + 1 else c) from rfl]
          refine le_trans ?_ (ih e _ _)
          split
          all_goals omega

theorem wcGo_take_mono : ∀ (k : Nat) (e : List Char) (wc : Bool) (c : Nat),
    k < e.length →
    wcGo (e.take k ++ [' ']) e wc c ≤ wcGo (e.take (k + 1) ++ [' ']) e wc c := by
  intro k
  induction k with
  | zero =>
      intro e wc c hk
      cases e with
      | nil => simp at hk
      | cons y e' =>
          have hL : wcGo ((y :: e').take 0 ++ [' ']) (y :: e') wc c =
              (if y = ' ' && wc then c + 1 else c) := rfl
          have hR : wcGo ((y :: e').take 1 ++ [' ']) (y :: e') wc c =
              wcGo [' '] e' (if y ≠ y then false else if y = ' ' then true else wc)
                (if y = ' ' && wc then c + 1 else c) := rfl
          rw [hL, hR]
          exact wcGo_ge _ _ _ _
  | succ k ih =>
      intro e wc c hk
      cases e with
      | nil => simp at hk
      | cons y e' =>
          rw [List.take_succ_cons, List.take_succ_cons, List.cons_append,
            List.cons_append]
          rw [show wcGo (y :: (e'.take k ++ [' '])) (y :: e') wc c =
              wcGo (e'.take k ++ [' ']) e'
              (if y ≠ y then false else if y = ' ' then true else wc)
              (if y = ' ' && wc then c + 1 else c) from rfl]
          rw [show wcGo (y :: (e'.take (k + 1) ++ [' '])) (y :: e') wc c =
              wcGo (e'.take (k + 1) ++ [' ']) e'
              (if y ≠ y then false else if y = ' ' then true else wc)
              (if y = ' ' && wc then c + 1 else c) from rfl]
          exact ih e' _ _ (by simpa using hk)

theorem wcGo_le_spaces (b : List Char) : ∀ (e : List Char) (wc : Bool) (c : Nat),
    wcGo b e wc c ≤ c + e.count ' ' + 1 := by
  induction b with
  | nil => intro e wc c; simp [wcGo]; omega
  | cons x b ih =>
      intro e wc c
      cases e with
      | nil =>
          rw [show wcGo (x :: b) [] wc c = if wc then c + 1 else c from rfl]
          split
          all_goals simp
      | cons y e =>
          rw [show wcGo (x :: b) (y :: e) wc c = wcGo b e
              (if x ≠ y then false else if y = ' ' then true else wc)
              (if y = ' ' && wc then c + 1 else c) from rfl]
          refine le_trans (ih e _ _) ?_
          by_cases hy : y = ' '
          all_goals cases wc
          all_goals simp [hy, List.count_cons]
          all_goals omega

theorem splitCh_ne_nil (s : List Char) : splitCh s ≠ [] := by
  cases s with
  | nil => simp [splitCh]
  | cons c rest =>
      rw [splitCh]
      rcases h : splitCh rest with _ | ⟨w, ws⟩
      · simp
      · by_cases hc : c = ' '
        all_goals simp [hc]

theorem splitCh_length (s : List Char) : (splitCh s).length = s.count ' ' + 1 := by
  induction s with
  | nil => simp [splitCh]
  | cons c rest ih =>
      rw [splitCh]
      rcases h : splitCh rest with _ | ⟨w, ws⟩
      · exact absurd h (splitCh_ne_nil rest)
      · rw [h] at ih
        simp only [List.length_cons] at ih
        by_cases hc : c = ' '
        all_goals simp [hc, List.count_cons]
        all_goals omega

/-! Round-trip lemmas for `splitCh` and `join`. -/

theorem splitCh_no_space (w : List Char) (hw : ' ' ∉ w) : splitCh w = [w] := by
  induction w with
  | nil => simp [splitCh]
  | cons c rest ih =>
      have hc : c ≠ ' ' := by rintro rfl; exact hw (List.mem_cons_self _ _)
      have hrest : ' ' ∉ rest := fun h => hw (List.mem_cons_of_mem c h)
      rw [splitCh, ih hrest]
      simp [hc]

theorem splitCh_append_space (w t : List Char) (hw : ' ' ∉ w) :
    splitCh (w ++ ' ' :: t) = w :: splitCh t := by
  induction w with
  | nil =>
      rw [List.nil_append, splitCh]
      rcases h : splitCh t with _ | ⟨u, us⟩
      · exact absurd h (splitCh_ne_nil t)
      · simp
  | cons c rest ih =>
      have hc : c ≠ ' ' := by rintro rfl; exact hw (List.mem_cons_self _ _)
      have hrest : ' ' ∉ rest := fun h => hw (List.mem_cons_of_mem c h)
      rw [List.cons_append, splitCh, ih hrest]
      simp [hc]

theorem splitCh_join (ws : List (List Char)) (hne : ws ≠ [])
    (hsp : ∀ w ∈ ws, ' ' ∉ w) : splitCh (join ws) = ws := by
  induction ws with
  | nil => exact absurd rfl hne
  | cons w ws ih =>
      cases ws with
      | nil => exact splitCh_no_space w (hsp w (List.mem_cons_self _ _))
      | cons w2 ws' =>
          rw [show join (w :: w2 :: ws') = w ++ ' ' :: join (w2 :: ws') from rfl]
          rw [splitCh_append_space w _ (hsp w (List.mem_cons_self _ _))]
          rw [ih (by simp) (fun u hu => hsp u (List.mem_cons_of_mem w hu))]

/-! Byte lengths of ASCII strings. -/

theorem byteLen_ascii (s : List Char) (h : ∀ c ∈ s, Char.utf8Size c = 1) :
    byteLen s = s.length := by
  induction s with
  | nil => simp [byteLen]
  | cons c rest ih =>
      have hc := h c (List.mem_cons_self _ _)
      have hrest : (List.map Char.utf8Size rest).sum = rest.length :=
        ih (fun u hu => h u (List.mem_cons_of_mem c hu))
      show (List.map Char.utf8Size (c :: rest)).sum = (c :: rest).length
      rw [List.map_cons, List.sum_cons, List.length_cons, hc, hrest]
      omega

/-! Session-controller lemmas: the rotation accounting and the preservation
of the test mode and of a not-yet-started timer along the input loop. -/

theorem get_next_line_wc (t : TypingTest) (gen : List Char) :
    (t.get_next_line gen)._word_count = t._word_count + t.line.word_count := by
  rcases h : t.test_mode with w | s | ⟨r, cu⟩
  all_goals simp [TypingTest.get_next_line, h]

theorem get_next_line_isQuote (t : TypingTest) (gen : List Char) :
    (t.get_next_line gen).test_mode.isQuote = t.test_mode.isQuote := by
  rcases h : t.test_mode with w | s | ⟨r, cu⟩
  all_goals simp [TypingTest.get_next_line, h, TestMode.isQuote]

theorem reset_isQuote (t : TypingTest) (o : Oracle) :
    (t.reset o).test_mode.isQuote = t.test_mode.isQuote := by
  rcases h : t.test_mode with w | s | ⟨r, cu⟩
  all_goals simp [TypingTest.reset, h, TestMode.isQuote]

theorem kbin_isQuote (t : TypingTest) (ev : Option Event) (now : Nat) (o : Oracle) :
    (t.kbin ev now o).test_mode.isQuote = t.test_mode.isQuote := by
  rcases ev with _ | ev
  · rfl
  cases ev
  case Esc => rfl
  case Backspace => rfl
  case Other => rfl
  case Tab => exact reset_isQuote t o
  case Chr c =>
      simp only [TypingTest.kbin]
      have hmode : t.test_mode.isQuote =
          (if t.instant.isNone then { t with instant := some now }
            else t).test_mode.isQuote := by
        split
        · rfl
        · rfl
      rw [hmode]
      generalize (if t.instant.isNone then { t with instant := some now } else t) = t'
      split
      · rw [get_next_line_isQuote]
      · rfl

theorem checkBreak_quote (t : TypingTest) (now : Nat)
    (h : t.test_mode.isQuote = true) :
    checkBreak t now = (t.line.done && t.next_line.done) := by
  rcases ht : t.test_mode with w | s | ⟨r, cu⟩
  · rw [ht] at h; simp [TestMode.isQuote] at h
  · rw [ht] at h; simp [TestMode.isQuote] at h
  · simp [checkBreak, ht]

theorem runLoop_quote_break (t : TypingTest)
    (evs : List (Option Event × Nat × Oracle)) (hq : t.test_mode.isQuote = true)
    (hb : (runLoop t evs).2 = true) :
    (runLoop t evs).1.line.done = true ∧ (runLoop t evs).1.next_line.done = true := by
  induction evs generalizing t with
  | nil => simp [runLoop] at hb
  | cons x rest ih =>
      obtain ⟨ev, now, o⟩ := x
      simp only [runLoop] at hb ⊢
      by_cases hr : t.running = true
      · rw [if_pos hr] at hb ⊢
        by_cases hcb : checkBreak (t.kbin ev now o) now = true
        · rw [if_pos hcb] at hb ⊢
          have hq1 : (t.kbin ev now o).test_mode.isQuote = true := by
            rw [kbin_isQuote]; exact hq
          have := checkBreak_quote (t.kbin ev now o) now hq1
          rw [this] at hcb
          exact (Bool.and_eq_true _ _).mp hcb
        · rw [if_neg hcb] at hb ⊢
          exact ih (t.kbin ev now o) (by rw [kbin_isQuote]; exact hq) hb
      · rw [if_neg hr] at hb
        simp at hb

theorem kbin_nonchar_time (t : TypingTest) (ev : Option Event) (now : Nat)
    (o : Oracle) (s : Nat) (hnc : isCharEvent ev = false)
    (hI : t.instant = none) (hm : t.test_mode = TestMode.TimeLimit s) :
    (t.kbin ev now o).instant = none ∧
      (t.kbin ev now o).test_mode = TestMode.TimeLimit s := by
  rcases ev with _ | ev
  · exact ⟨hI, hm⟩
  cases ev
  case Esc => exact ⟨hI, hm⟩
  case Backspace => exact ⟨hI, hm⟩
  case Other => exact ⟨hI, hm⟩
  case Chr c => simp [isCharEvent] at hnc
  case Tab =>
      constructor
      all_goals simp [TypingTest.kbin, TypingTest.reset, hm]

theorem draw_score_time_unstarted (t : TypingTest) (now : Nat)
    (h : t.instant = none) : t.draw_score_time now = F32.fin 0 := by
  rw [TypingTest.draw_score_time, h]

theorem draw_score_wpm_unstarted (t : TypingTest) (now : Nat)
    (h : t.instant = none) :
    t.draw_score_wpm now = (if t.word_count = 0 then F32.nan else F32.inf) := by
  rw [TypingTest.draw_score_wpm, draw_score_time_unstarted t now h]
  have h60 : F32.div (F32.fin 0) (F32.fin 60) = F32.fin 0 := by
    show (if (60 : ℚ) = 0 then (if (0 : ℚ) = 0 then F32.nan else F32.inf)
          else F32.fin (0 / 60)) = F32.fin 0
    rw [if_neg (by norm_num)]
    norm_num
  rw [h60]
  show (if (0 : ℚ) = 0 then (if ((t.word_count : ℚ)) = 0 then F32.nan else F32.inf)
        else F32.fin ((t.word_count : ℚ) / 0)) =
      if t.word_count = 0 then F32.nan else F32.inf
  rw [if_pos rfl]
  by_cases hwc : t.word_count = 0
  · rw [if_pos (by exact_mod_cast hwc), if_pos hwc]
  · rw [if_neg (by exact_mod_cast hwc), if_neg hwc]

/-! The claims. -/

/-- Claim C1 (counterexample to the edge case): a `Line` whose `expected` is
the empty string has `word_count() = 1`, not `0`: the scan starts on the
synthetic trailing space of the buffer, immediately runs past the end of the
empty `expected`, and credits the vacuously-correct in-progress word. -/
theorem word_count_empty_expected_not_zero :
    Line.word_count ⟨[], []⟩ = 1 ∧ Line.word_count ⟨[], []⟩ ≠ 0 := by
  constructor
  · rfl
  · decide

/-- Claim C1 (amended): for every `Line`, `word_count()` credits a word only
at a boundary space in `expected` reached by the scan of `buffer` (with one
synthetic trailing space appended), or at the break where the scan runs past
the end of `expected` while still inside the buffer, and only if every
character compared so far in that word matched exactly (the comparison at the
boundary space before a word is charged to that word); if `buffer` is longer
than `expected` the scan terminates at `expected`'s length, crediting the
in-progress word if it was fully correct up to that point.  In particular a
`Line` whose `expected` is the empty string has `word_count() = 1` (the break
credit fires immediately), not `0` as the claim stated. -/
theorem word_count_boundary_characterization :
    (∀ l : Line, l.word_count = wordCountSpec l) ∧ Line.word_count ⟨[], []⟩ = 1 :=
  ⟨word_count_eq_spec, rfl⟩

/-- Claim C9 (counterexample to the bound): for the `Line` with empty
`buffer` and empty `expected`, `word_count()` is `1`, which exceeds the
number of space-delimited words of the empty `expected` (zero). -/
theorem word_count_exceeds_numWords :
    ¬ (Line.word_count ⟨[], []⟩ ≤ numWords []) := by decide

/-- Claim C9 (amended): `word_count()` is monotonically non-decreasing as
characters are appended to `buffer` while `buffer` remains a correct prefix
of `expected` (a correct prefix of length `k` is `expected.take k`), and
`word_count()` never exceeds the number of pieces of `expected.split(' ')`,
i.e. the number of spaces of `expected` plus one.  That piece count equals
the number of space-delimited words whenever `expected` is nonempty with no
leading, trailing or repeated spaces; for empty `expected` the word count is
`1` while the number of space-delimited words is `0`, so the bound of the
original claim fails there. -/
theorem word_count_monotone_bounded :
    (∀ (e : List Char) (k : Nat), k < e.length →
        Line.word_count ⟨e.take k, e⟩ ≤ Line.word_count ⟨e.take (k + 1), e⟩) ∧
      ∀ l : Line, l.word_count ≤ (splitCh l.expected).length := by
  constructor
  · intro e k hk
    exact wcGo_take_mono k e true 0 hk
  · intro l
    rw [splitCh_length]
    have := wcGo_le_spaces (l.buffer ++ [' ']) l.expected true 0
    rw [Nat.zero_add] at this
    exact this

/-- Claim C9 witness: the monotonicity applied at the expected text "a b"
with the correct prefixes of lengths 1 and 2. -/
theorem word_count_monotone_bounded_witness :
    Line.word_count ⟨List.take 1 ['a', ' ', 'b'], ['a', ' ', 'b']⟩ ≤
      Line.word_count ⟨List.take 2 ['a', ' ', 'b'], ['a', ' ', 'b']⟩ :=
  word_count_monotone_bounded.1 ['a', ' ', 'b'] 1 (by decide)

/-- Claim C2 (counterexample): `done()` and `index()` measure UTF-8 bytes,
not characters.  For `buffer` = "é" (one character, two bytes) and
`expected` = "ab" (two characters, two bytes), the code reports `done()`
even though the buffer holds fewer characters than the expected text,
and `index()` is 2 although one character was typed. -/
theorem done_counts_bytes_not_chars :
    Line.done ⟨['é'], ['a', 'b']⟩ = true ∧
      ¬ ((['é'] : List Char).length ≥ (['a', 'b'] : List Char).length) ∧
      Line.index ⟨['é'], ['a', 'b']⟩ = 2 ∧ (['é'] : List Char).length = 1 := by
  refine ⟨?_, by decide, ?_, by decide⟩
  · rfl
  · rfl

/-- Claim C2 (amended): `done()` returns true iff
`index() >= length(expected)` where `index()` is the length of `buffer` and
both lengths are measured in UTF-8 bytes (Rust `String::len`), not in
Unicode scalar values; the two readings agree whenever all characters
involved are ASCII (one-byte).  For a `Line` with `expected = ""`, `done()`
is true immediately from construction. -/
theorem done_iff_byte_lengths :
    (∀ l : Line, l.done = decide (byteLen l.buffer ≥ byteLen l.expected)) ∧
      (∀ l : Line, (∀ c ∈ l.buffer, Char.utf8Size c = 1) →
        (∀ c ∈ l.expected, Char.utf8Size c = 1) →
        l.done = decide (l.buffer.length ≥ l.expected.length)) ∧
      (∀ b : List Char, Line.done ⟨b, []⟩ = true) ∧ Line.empty.done = true := by
  refine ⟨fun l => rfl, fun l hb he => ?_, fun b => ?_, rfl⟩
  · show decide (Line.index l ≥ byteLen l.expected) = _
    rw [Line.index, byteLen_ascii _ hb, byteLen_ascii _ he]
  · show decide (Line.index ⟨b, []⟩ ≥ byteLen []) = true
    simp [Line.index, byteLen]

/-- Claim C2 witness: the ASCII equivalence applied to the line with buffer
"ab" and expected "abc". -/
theorem done_iff_byte_lengths_witness :
    Line.done ⟨['a', 'b'], ['a', 'b', 'c']⟩ =
      decide ((['a', 'b'] : List Char).length ≥ (['a', 'b', 'c'] : List Char).length) :=
  done_iff_byte_lengths.2.1 ⟨['a', 'b'], ['a', 'b', 'c']⟩ (by decide) (by decide)

/-- Claim C5 (counterexample): `from_quote` splits on single space characters
only, not on general whitespace.  The text "a\tb c d e f g h i j k" holds
eleven whitespace-separated words but only ten space-separated pieces, so the
code consumes the whole text and leaves an empty remainder, while the claim
predicts the eleventh word "k" to be left over. -/
theorem from_quote_splits_spaces_only :
    (Line.from_quote ("a\tb c d e f g h i j k".toList)).2 = [] ∧
      join ((wsWords ("a\tb c d e f g h i j k".toList)).drop LINE_LEN) = ['k'] ∧
      (Line.from_quote ("a\tb c d e f g h i j k".toList)).2 ≠
        join ((wsWords ("a\tb c d e f g h i j k".toList)).drop LINE_LEN) := by
  refine ⟨rfl, rfl, ?_⟩
  decide

/-- Claim C5 (amended): `from_source` (`Line::from_quote`) consumes the first
10 pieces of the given text split on single space characters (not general
whitespace; all remaining pieces if fewer than 10, possibly yielding an empty
expected) as the new line's `expected`, and mutates the text to hold the
leftover pieces rejoined by single spaces.  Applying it twice to a text of
K >= 20 space-separated nonempty words leaves exactly K - 20 words in the
remainder, equal to words 21..K rejoined with single spaces. -/
theorem from_quote_consumes_ten_words :
    (∀ s : List Char,
        (Line.from_quote s).1.buffer = [] ∧
        (Line.from_quote s).1.expected = join ((splitCh s).take LINE_LEN) ∧
        (Line.from_quote s).2 = join ((splitCh s).drop LINE_LEN)) ∧
      ∀ ws : List (List Char), 20 ≤ ws.length →
        (∀ w ∈ ws, w ≠ [] ∧ ' ' ∉ w) →
        (Line.from_quote (join ws)).1.expected = join (ws.take 10) ∧
        (Line.from_quote (Line.from_quote (join ws)).2).1.expected =
          join ((ws.drop 10).take 10) ∧
        (Line.from_quote (Line.from_quote (join ws)).2).2 = join (ws.drop 20) ∧
        numWords (Line.from_quote (Line.from_quote (join ws)).2).2 =
          ws.length - 20 := by
  constructor
  · intro s
    exact ⟨rfl, rfl, rfl⟩
  · intro ws h20 hws
    have hsp : ∀ w ∈ ws, ' ' ∉ w := fun w hw => (hws w hw).2
    have hne : ws ≠ [] := by
      intro h
      rw [h] at h20
      simp at h20
    have hsplit : splitCh (join ws) = ws := splitCh_join ws hne hsp
    have h1 : (Line.from_quote (join ws)).1.expected = join (ws.take 10) := by
      show join ((splitCh (join ws)).take LINE_LEN) = join (ws.take 10)
      rw [hsplit]
      rfl
    have hr1 : (Line.from_quote (join ws)).2 = join (ws.drop 10) := by
      show join ((splitCh (join ws)).drop LINE_LEN) = join (ws.drop 10)
      rw [hsplit]
      rfl
    have hd10ne : ws.drop 10 ≠ [] := by
      have hlen : (ws.drop 10).length = ws.length - 10 := List.length_drop 10 ws
      intro h
      rw [h] at hlen
      simp at hlen
      omega
    have hsp10 : ∀ w ∈ ws.drop 10, ' ' ∉ w :=
      fun w hw => hsp w (List.drop_subset 10 ws hw)
    have hsplit2 : splitCh (join (ws.drop 10)) = ws.drop 10 :=
      splitCh_join _ hd10ne hsp10
    have h2 : (Line.from_quote (Line.from_quote (join ws)).2).1.expected =
        join ((ws.drop 10).take 10) := by
      rw [hr1]
      show join ((splitCh (join (ws.drop 10))).take LINE_LEN) = _
      rw [hsplit2]
      rfl
    have h3 : (Line.from_quote (Line.from_quote (join ws)).2).2 =
        join (ws.drop 20) := by
      rw [hr1]
      show join ((splitCh (join (ws.drop 10))).drop LINE_LEN) = _
      rw [hsplit2]
      show join ((ws.drop 10).drop 10) = _
      rw [List.drop_drop]
    refine ⟨h1, h2, h3, ?_⟩
    rw [h3]
    rcases Nat.eq_or_lt_of_le h20 with h20e | h20l
    · have hd : ws.drop 20 = [] := by
        apply List.drop_eq_nil_of_le
        omega
      rw [hd]
      show numWords [] = ws.length - 20
      have : numWords [] = 0 := rfl
      omega
    · have hd20ne : ws.drop 20 ≠ [] := by
        have hlen : (ws.drop 20).length = ws.length - 20 := List.length_drop 20 ws
        intro h
        rw [h] at hlen
        simp at hlen
        omega
      have hsp20 : ∀ w ∈ ws.drop 20, ' ' ∉ w :=
        fun w hw => hsp w (List.drop_subset 20 ws hw)
      have hsplit3 : splitCh (join (ws.drop 20)) = ws.drop 20 :=
        splitCh_join _ hd20ne hsp20
      show ((splitCh (join (ws.drop 20))).filter (fun w => !w.isEmpty)).length = _
      rw [hsplit3]
      have hfil : (ws.drop 20).filter (fun w => !w.isEmpty) = ws.drop 20 := by
        apply List.filter_eq_self.mpr
        intro w hw
        have := (hws w (List.drop_subset 20 ws hw)).1
        simp [this]
      rw [hfil, List.length_drop]

/-- Claim C5 witness: the two-fold split applied to twenty one-letter words. -/
theorem from_quote_consumes_ten_words_witness :
    (Line.from_quote (join (List.replicate 20 ['a']))).1.expected =
      join ((List.replicate 20 ['a']).take 10) :=
  (from_quote_consumes_ten_words.2 (List.replicate 20 ['a']) (by decide)
    (by decide)).1

/-- Claim C10 (confirmed): when none of the number, time and quote flags is
supplied (and no custom quote), `main` starts a session in word-count mode
with the default target of 30 words. -/
theorem default_mode_thirty_words :
    ∀ gen1 gen2 rq : List Char,
      (TypingTest.new ⟨none, none, false, none⟩ gen1 gen2 rq).test_mode =
          TestMode.WordCount 30 ∧
        mainFn ⟨none, none, false, none⟩ gen1 gen2 rq =
          MainOutcome.session (TypingTest.new ⟨none, none, false, none⟩ gen1 gen2 rq) :=
  fun _ _ _ => ⟨rfl, rfl⟩

/-- Claim C6 (counterexample): for a freshly constructed word-count session
(no keystroke yet, timer unset), `draw_score` computes
`wpm = 0 as f32 / (0.0 / 60.0) = 0.0 / 0.0 = NaN` and formats that NaN into
the score line; the display is neither 0 nor a not-yet-started indication. -/
theorem wpm_nan_before_typing :
    (TypingTest.new ⟨none, none, false, none⟩ ("hi".toList) ("yo".toList)
        []).draw_score_wpm 0 = F32.nan ∧ F32.nan ≠ F32.fin 0 := by
  constructor
  · rw [draw_score_wpm_unstarted _ 0 rfl]
    rw [if_pos
      (show (TypingTest.new ⟨none, none, false, none⟩ ("hi".toList) ("yo".toList)
        []).word_count = 0 from rfl)]
  · decide

/-- Claim C6 (amended): before the timer has started (no character typed
yet), `draw_score` takes the elapsed time as 0, and the WPM division
`wc / (0 / 60)` is computed with no guard: it evaluates to NaN when the word
count is 0 (the fresh-session case) and to +infinity otherwise, and this
meaningless value is propagated to the score display rather than being shown
as 0 or a not-yet-started indication. -/
theorem wpm_unstarted_timer :
    ∀ (t : TypingTest) (now : Nat), t.instant = none →
      t.draw_score_time now = F32.fin 0 ∧
      t.draw_score_wpm now = (if t.word_count = 0 then F32.nan else F32.inf) :=
  fun t now h => ⟨draw_score_time_unstarted t now h, draw_score_wpm_unstarted t now h⟩

/-- Claim C6 witness: the amended statement applied to a fresh word-count
session at clock 0. -/
theorem wpm_unstarted_timer_witness :
    (TypingTest.new ⟨none, none, false, none⟩ ("hi".toList) ("yo".toList)
        []).draw_score_time 0 = F32.fin 0 :=
  (wpm_unstarted_timer
    (TypingTest.new ⟨none, none, false, none⟩ ("hi".toList) ("yo".toList) []) 0 rfl).1

/-- Claim C7 (counterexample): with both a time limit and a word count
requested, `main` prints the conflict message and returns `Ok(())`, so the
process exits with status 0 — the success status, not one indicating
failure. -/
theorem conflicting_flags_exit_zero :
    mainFn ⟨some 5, some 30, false, none⟩ [] [] [] =
        MainOutcome.confError conflictMsg 0 ∧
      (mainFn ⟨some 5, some 30, false, none⟩ [] [] []).exitsWithFailure = false := by
  constructor
  · rfl
  · rfl

/-- Claim C7 (amended): when the command-line flags violate the
mutual-exclusion rule (more than one of number/time/quote set, with
`--custom-quote` implying quote mode), the program prints a user-facing error
message and returns before any session is constructed and before the terminal
is ever switched to raw mode — but it returns `Ok(())`, so the process exit
status is 0 (success), not a status indicating failure. -/
theorem conflicting_flags_rejected :
    ∀ (args : Args) (gen1 gen2 rq : List Char),
      ((args.time.isSome && args.number.isSome) ||
        (args.time.isSome && (args.quote || args.custom_quote.isSome)) ||
        (args.number.isSome && (args.quote || args.custom_quote.isSome))) = true →
      mainFn args gen1 gen2 rq = MainOutcome.confError conflictMsg 0 ∧
      (mainFn args gen1 gen2 rq).rawModeEntered = false ∧
      (mainFn args gen1 gen2 rq).exitStatus = some 0 := by
  intro args g1 g2 rq h
  have hmain : mainFn args g1 g2 rq = MainOutcome.confError conflictMsg 0 := by
    obtain ⟨n, ti, q, cq⟩ := args
    cases ti
    all_goals cases n
    all_goals cases cq
    all_goals cases q
    all_goals simp_all [mainFn]
  refine ⟨hmain, ?_, ?_⟩
  · rw [hmain]
    rfl
  · rw [hmain]
    rfl

/-- Claim C7 witness: the amended statement applied to
`--number 5 --time 30`. -/
theorem conflicting_flags_rejected_witness :
    mainFn ⟨some 5, some 30, false, none⟩ [] [] [] =
        MainOutcome.confError conflictMsg 0 :=
  (conflicting_flags_rejected ⟨some 5, some 30, false, none⟩ [] [] [] rfl).1

/-- Claim C8 (confirmed): in time-limit mode the elapsed-time termination
condition is evaluated only once the timer has been started, and the timer
starts only on a character keystroke; hence a session whose event trace
contains no character keystroke never terminates through the time limit: the
loop never breaks, the timer stays unset, and the loop continues until a quit
event clears `running` or the schedule ends. -/
theorem time_limit_requires_started_timer :
    ∀ (evs : List (Option Event × Nat × Oracle)) (t : TypingTest) (s : Nat),
      t.test_mode = TestMode.TimeLimit s → t.instant = none →
      (∀ x ∈ evs, isCharEvent x.1 = false) →
      (runLoop t evs).2 = false ∧ (runLoop t evs).1.instant = none := by
  intro evs
  induction evs with
  | nil =>
      intro t s hm hI _
      exact ⟨rfl, hI⟩
  | cons x rest ih =>
      obtain ⟨ev, now, o⟩ := x
      intro t s hm hI hnc
      simp only [runLoop]
      by_cases hr : t.running = true
      · rw [if_pos hr]
        obtain ⟨hI1, hm1⟩ := kbin_nonchar_time t ev now o s
          (hnc (ev, now, o) (List.mem_cons_self _ _)) hI hm
        have hb : checkBreak (t.kbin ev now o) now = false := by
          rw [checkBreak]
          simp [hm1, hI1]
        rw [if_neg (by rw [hb]; exact Bool.false_ne_true)]
        exact ih (t.kbin ev now o) s hm1 hI1
          (fun y hy => hnc y (List.mem_cons_of_mem _ hy))
      · rw [if_neg hr]
        exact ⟨rfl, hI⟩

/-- Claim C8 witness: a time-limit session with target 1 second whose only
event is an escape keystroke at clock 5: the loop does not break. -/
theorem time_limit_requires_started_timer_witness :
    (runLoop (TypingTest.new ⟨none, some 1, false, none⟩ [] [] [])
        [(some Event.Esc, 5, ⟨[], [], [], []⟩)]).2 = false :=
  (time_limit_requires_started_timer [(some Event.Esc, 5, ⟨[], [], [], []⟩)]
    (TypingTest.new ⟨none, some 1, false, none⟩ [] [] []) 1 rfl rfl (by decide)).1

/-- Claim C3 (confirmed): in quote mode the input loop exits through the
mode-termination break exactly when both the current and the lookahead line
are done after the polled event of the iteration has been applied (a quit
event instead clears `running`, which ends the loop without the break).  For
the custom quote "a b c d e" of 5 words and line length 10, the first line's
expected text is the whole quote untruncated, the second line's expected text
is the empty string (so `next.done()` holds immediately), and the session
terminates by break exactly once the first line is completed: typing the nine
quote characters breaks the loop, while the first eight alone do not. -/
theorem quote_mode_termination :
    (∀ (t : TypingTest) (evs : List (Option Event × Nat × Oracle)),
        t.test_mode.isQuote = true → (runLoop t evs).2 = true →
        (runLoop t evs).1.line.done = true ∧
          (runLoop t evs).1.next_line.done = true) ∧
      (∀ (t : TypingTest) (ev : Option Event) (now : Nat) (o : Oracle)
          (rest : List (Option Event × Nat × Oracle)),
        t.test_mode.isQuote = true → t.running = true →
        (runLoop t ((ev, now, o) :: rest) = (t.kbin ev now o, true) ↔
          (t.kbin ev now o).line.done = true ∧
            (t.kbin ev now o).next_line.done = true)) ∧
      ((TypingTest.new ⟨none, none, true, some ("a b c d e".toList)⟩
          [] [] []).line.expected = "a b c d e".toList ∧
        (TypingTest.new ⟨none, none, true, some ("a b c d e".toList)⟩
          [] [] []).next_line.expected = [] ∧
        (TypingTest.new ⟨none, none, true, some ("a b c d e".toList)⟩
          [] [] []).next_line.done = true ∧
        (runLoop (TypingTest.new ⟨none, none, true, some ("a b c d e".toList)⟩ [] [] [])
            (("a b c d e".toList).map
              (fun c => (some (Event.Chr c), 0, (⟨[], [], [], []⟩ : Oracle))))).2 = true ∧
        (runLoop (TypingTest.new ⟨none, none, true, some ("a b c d e".toList)⟩ [] [] [])
            ((("a b c d e".toList).map
              (fun c => (some (Event.Chr c), 0, (⟨[], [], [], []⟩ : Oracle)))).take 8)).2
          = false) := by
  refine ⟨runLoop_quote_break, ?_, by decide, by decide, by decide, by decide, by decide⟩
  intro t ev now o rest hq hr
  constructor
  · intro h
    have h2 := runLoop_quote_break t ((ev, now, o) :: rest) hq (by rw [h])
    rw [h] at h2
    exact h2
  · rintro ⟨h1, h2⟩
    have hq1 : (t.kbin ev now o).test_mode.isQuote = true := by
      rw [kbin_isQuote]
      exact hq
    have hcb : checkBreak (t.kbin ev now o) now = true := by
      rw [checkBreak_quote _ _ hq1, h1, h2]
      rfl
    simp only [runLoop]
    rw [if_pos hr, if_pos hcb]

/-- Claim C3 witness: the only-if direction applied to the scenario run that
types the whole quote. -/
theorem quote_mode_termination_witness :
    (runLoop (TypingTest.new ⟨none, none, true, some ("a b c d e".toList)⟩ [] [] [])
        (("a b c d e".toList).map
          (fun c => (some (Event.Chr c), 0, (⟨[], [], [], []⟩ : Oracle))))).1.line.done
        = true ∧
      (runLoop (TypingTest.new ⟨none, none, true, some ("a b c d e".toList)⟩ [] [] [])
        (("a b c d e".toList).map
          (fun c => (some (Event.Chr c), 0, (⟨[], [], [], []⟩ : Oracle))))).1.next_line.done
        = true :=
  quote_mode_termination.1 _ _ (by decide) (by decide)

/-- Claim C4 (confirmed): every rotation adds the outgoing current line's
word count (evaluated at the moment of rotation) to the cumulative session
word count, makes the old next line the new current line, archives the
just-finished line as previous, and installs one freshly generated (word and
time modes) or freshly consumed (quote mode) line as the new next;
consequently, after any sequence of rotations — with arbitrary typing on the
current line between rotations — the cumulative count equals the sum of the
rotated-out lines' word counts taken at their rotation moments, each counted
once. -/
theorem rotation_word_accounting :
    (∀ (t : TypingTest) (gen : List Char),
        (t.get_next_line gen)._word_count = t._word_count + t.line.word_count ∧
        (t.get_next_line gen).previous_line = t.line ∧
        (t.get_next_line gen).line = t.next_line ∧
        (t.test_mode.isQuote = false →
          (t.get_next_line gen).next_line = Line.new gen) ∧
        (∀ (r : List Char) (cu : Option (List Char)),
          t.test_mode = TestMode.QuoteMode r cu →
          (t.get_next_line gen).next_line = (Line.from_quote r).1 ∧
          (t.get_next_line gen).test_mode =
            TestMode.QuoteMode (Line.from_quote r).2 cu)) ∧
      ∀ (t : TypingTest) (steps : List (List Char × List Char)),
        (rotateAll t steps)._word_count =
          t._word_count + (rotatedCounts t steps).sum := by
  constructor
  · intro t gen
    refine ⟨get_next_line_wc t gen, ?_, ?_, ?_, ?_⟩
    · rcases h : t.test_mode with w | s | ⟨r, cu⟩
      all_goals simp [TypingTest.get_next_line, h]
    · rcases h : t.test_mode with w | s | ⟨r, cu⟩
      all_goals simp [TypingTest.get_next_line, h]
    · intro hq
      rcases h : t.test_mode with w | s | ⟨r, cu⟩
      · simp [TypingTest.get_next_line, h]
      · simp [TypingTest.get_next_line, h]
      · rw [h] at hq
        simp [TestMode.isQuote] at hq
    · intro r cu h
      constructor
      all_goals simp [TypingTest.get_next_line, h]
  · intro t steps
    induction steps generalizing t with
    | nil => simp [rotateAll, rotatedCounts]
    | cons step rest ih =>
        obtain ⟨buf, gen⟩ := step
        rw [rotateAll, rotatedCounts, List.sum_cons, ih]
        rw [get_next_line_wc]
        have hset : (t.setBuffer buf)._word_count = t._word_count := rfl
        have hline : (t.setBuffer buf).line.word_count =
            Line.word_count ⟨buf, t.line.expected⟩ := rfl
        rw [hset, hline]
        omega

/-- Claim C4 witness: the quote-mode branch of the rotation applied to the
freshly constructed custom-quote session. -/
theorem rotation_word_accounting_witness :
    ((TypingTest.new ⟨none, none, true, some ("a b c d e".toList)⟩
        [] [] []).get_next_line ['x']).next_line = (Line.from_quote []).1 :=
  ((rotation_word_accounting.1
      (TypingTest.new ⟨none, none, true, some ("a b c d e".toList)⟩ [] [] [])
      ['x']).2.2.2.2 [] (some ("a b c d e".toList)) (by decide)).1

end Typing
